import Mathlib

/-!
Verification development for the SpellCrystal repository
(`src/jyogi_manager.py`), a single-file business-management console
persisting six tables to one spreadsheet file plus an images directory.

The data-access layer is shallowly embedded below:
cell values are strings, a row is an association list from column name
to value, a table (`DF`) is a column list plus a row list, and the
workbook file is an optional association list from sheet name to table
(`none` models an unreadable/corrupt file).  Exceptions raised by the
spreadsheet writer are modelled by an explicit outcome parameter, and
the `uuid.uuid4()` generator by an explicit function parameter.
-/

namespace SpellCrystal

/-- Allow-list of `safe_text` (`jyogi_manager.py`, line 37):
the regex `[^a-zA-Z0-9 \.\,\!\-\@\:\/]` deletes everything else. -/
def allowedT (c : Char) : Bool :=
  c.isAlpha || c.isDigit || c == ' ' || c == '.' || c == ',' || c == '!' ||
    c == '-' || c == '@' || c == ':' || c == '/'

/-- `safe_text` (lines 31-37).  `none` models a missing/NaN value
(`pd.isna`), `some s` the textual representation `str(text)`. -/
def safe_text : Option String → String
  | none => ""
  | some t => String.mk (t.data.filter allowedT)

/-- Allow-list of `safe_filename` (line 53): regex `[^a-zA-Z0-9\.\- ]`. -/
def allowedF (c : Char) : Bool :=
  c.isAlpha || c.isDigit || c == '.' || c == '-' || c == ' '

/-- ASCII whitespace matched by Python's `\s` / `str.strip()`. -/
def isPyWS (c : Char) : Bool :=
  c == ' ' || c == '\t' || c == '\n' || c == '\r' || c == '\x0b' || c == '\x0c'

/-- `re.sub(r"\s+", "-", text)` (line 54): every maximal run of
whitespace becomes a single dash.  The boolean argument records whether
the previous character was whitespace. -/
def collapseWS : Bool → List Char → List Char
  | _, [] => []
  | prevWS, c :: rest =>
    if isPyWS c then
      if prevWS then collapseWS true rest else '-' :: collapseWS true rest
    else c :: collapseWS false rest

/-- Python `str.strip(pred)`: drop matching characters from both ends. -/
def dropEnds (p : Char → Bool) (l : List Char) : List Char :=
  ((l.dropWhile p).reverse.dropWhile p).reverse

/-- `safe_filename` (lines 49-55): strip outer whitespace, keep only
allow-listed characters, collapse whitespace runs to `-`, strip outer
dashes, truncate to 80 characters. -/
def safe_filename : Option String → String
  | none => ""
  | some s =>
    let t := dropEnds isPyWS s.data
    let f := t.filter allowedF
    let c := collapseWS false f
    let st := dropEnds (fun ch => ch == '-') c
    String.mk (st.take 80)

/-- A row: association list from column name to cell value. -/
abbrev Row := List (String × String)

/-- A table: ordered column names plus rows (a pandas `DataFrame`). -/
structure DF where
  cols : List String
  rows : List Row
deriving DecidableEq

/-- Reading one cell of a row; a missing column reads as empty text. -/
def cell (r : Row) (c : String) : String := (r.lookup c).getD ""

/-- The schema registry `SCHEMA` (lines 93-100): per sheet, the fixed
ordered column list. -/
def SCHEMA : List (String × List String) :=
  [("Orders", ["ID", "Date", "Customer", "Item", "Amount", "Status", "Notes"]),
   ("Healings", ["ID", "Date", "Client Name", "Request Type", "Intention", "Status", "Notes"]),
   ("Designs", ["ID", "Created On", "Design Name", "Category", "Components", "My Cost",
                "Selling Price", "Public", "Image Path", "Notes"]),
   ("Suppliers", ["ID", "Supplier Name", "Material", "Price Per Unit", "MOQ", "Contact Info",
                  "Notes"]),
   ("Reviews", ["ID", "Date", "Design ID", "Reviewer Name", "Rating", "Review", "Status",
                "Admin Reply"]),
   ("Readings", ["ID", "Date", "Client Name", "Reading Type", "Question", "Notes", "Status"])]

/-- The registry's column list for the Designs sheet. -/
def designsCols : List String :=
  ["ID", "Created On", "Design Name", "Category", "Components", "My Cost",
   "Selling Price", "Public", "Image Path", "Notes"]

/-- The registry's column list for the Reviews sheet. -/
def reviewsCols : List String :=
  ["ID", "Date", "Design ID", "Reviewer Name", "Rating", "Review", "Status", "Admin Reply"]

/-- `ensure_columns` (lines 112-118): a `None` frame becomes an empty
frame with the schema columns; otherwise every schema column missing
from the frame is synthesized as empty text (`df[c] = ""`) and the
frame is re-indexed to exactly `cols` in order (`df[cols]`), dropping
columns outside the schema. -/
def ensure_columns : Option DF → List String → DF
  | none, cols => ⟨cols, []⟩
  | some df, cols => ⟨cols, df.rows.map (fun r => cols.map (fun c => (c, cell r c)))⟩

/-- One row of `clean_df`: `safe_text` applied to every cell
(`df[col].apply(safe_text)`, line 44); `astype(str)` is the identity
in this string-valued model. -/
def clean_row (r : Row) : Row := r.map (fun p => (p.1, safe_text (some p.2)))

/-- `clean_df` (lines 39-45): an empty frame is returned unchanged,
otherwise every cell is sanitized. -/
def clean_df (df : DF) : DF :=
  if df.rows.isEmpty then df else ⟨df.cols, df.rows.map clean_row⟩

/-- The placeholder test of `ensure_ids` (line 125):
`df["ID"].isin(["", "nan", "None"])`. -/
def placeholderID (s : String) : Bool := s == "" || s == "nan" || s == "None"

/-- Overwriting the `ID` cell of one row (`df.loc[mask, "ID"] = ...`). -/
def setID (r : Row) (v : String) : Row :=
  r.map (fun p => if p.1 == "ID" then ("ID", v) else p)

/-- The masked assignment of `ensure_ids` (lines 126-127): rows whose
`ID` is a placeholder receive consecutive values of the fresh-id
generator `gen` (modelling the list of `uuid.uuid4()` strings), other
rows are untouched. -/
def assignIDs (gen : Nat → String) : Nat → List Row → List Row
  | _, [] => []
  | k, r :: rs =>
    if placeholderID (cell r "ID") then setID r (gen k) :: assignIDs gen (k + 1) rs
    else r :: assignIDs gen k rs

/-- `ensure_ids` (lines 120-128): an empty frame is returned at once,
otherwise placeholder IDs are replaced by fresh generator values. -/
def ensure_ids (gen : Nat → String) (df : DF) : DF :=
  if df.rows.isEmpty then df else ⟨df.cols, assignIDs gen 0 df.rows⟩

/-- `load_all_data` (lines 130-147).  The workbook is an optional
association list from sheet name to stored frame; `none` models an
unreadable or corrupt file (the `except` branch), in which case every
table comes back empty.  Present sheets go through `ensure_columns`,
`clean_df` and `ensure_ids`; absent sheets are synthesized empty.
`g` supplies the per-sheet stream of fresh `uuid4` identifiers. -/
def load_all_data (g : String → Nat → String) :
    Option (List (String × DF)) → List (String × DF)
  | none => SCHEMA.map (fun p => (p.1, DF.mk p.2 []))
  | some sheets =>
    SCHEMA.map (fun p => (p.1,
      match sheets.lookup p.1 with
      | some df => ensure_ids (g p.1) (clean_df (ensure_columns (some df) p.2))
      | none => DF.mk p.2 []))

/-- The normalization `save_all_data` performs on each sheet before
writing (lines 151-156): `data.get(sheet, empty)`, `ensure_columns`,
`clean_df`, written in `SCHEMA` order. -/
def save_all_tables (data : List (String × DF)) : List (String × DF) :=
  SCHEMA.map (fun p =>
    (p.1, clean_df (ensure_columns (some ((data.lookup p.1).getD (DF.mk p.2 []))) p.2)))

/-- Failure of the spreadsheet writer: `PermissionError` (destination
locked by another process) or any other exception with its message. -/
inductive WriteError where
  | permissionError : WriteError
  | otherError : String → WriteError

/-- What one call of `save_all_data` produces: the message shown to
the user, whether it is an error, and the sheets written (`none` when
the write was abandoned). -/
structure SaveOutcome where
  message : String
  isError : Bool
  written : Option (List (String × DF))
deriving DecidableEq

/-- The `st.error` text of the `PermissionError` branch (line 159). -/
def lockedMessage : String := "⚠️ CLOSE THE EXCEL FILE! I cannot save while it is open."

/-- The `st.toast` text of the success path (line 157). -/
def savedMessage : String := "✅ Saved successfully!"

/-- `save_all_data` (lines 149-161).  The writer's behaviour is an
explicit outcome parameter: on success all sheets are normalized and
written; on `PermissionError` a distinct actionable error is shown; on
any other exception a generic `Save failed` error is shown.  The
second component is the in-memory table mapping after the call — the
function never mutates its argument, so it is returned unchanged. -/
def save_all_data (data : List (String × DF)) :
    Except WriteError Unit → SaveOutcome × List (String × DF)
  | .ok _ => (⟨savedMessage, false, some (save_all_tables data)⟩, data)
  | .error .permissionError => (⟨lockedMessage, true, none⟩, data)
  | .error (.otherError e) => (⟨"Save failed: " ++ e, true, none⟩, data)

/-- Python dict read `data[s]` (total in this model). -/
def getDF (data : List (String × DF)) (s : String) : DF := (data.lookup s).getD (DF.mk [] [])

/-- Python dict write `data[s] = df`: replace the existing binding or
append a new one. -/
def setDF (data : List (String × DF)) (s : String) (df : DF) : List (String × DF) :=
  if (data.lookup s).isSome then data.map (fun p => if p.1 == s then (s, df) else p)
  else data ++ [(s, df)]

/-- The in-memory `data` mapping as `load_all_data` returns it: the
six sheets in registry order. -/
def sixTables (o h d s rv rd : DF) : List (String × DF) :=
  [("Orders", o), ("Healings", h), ("Designs", d),
   ("Suppliers", s), ("Reviews", rv), ("Readings", rd)]

/-- The delete-design button handler (lines 531-542): drop the Design
whose `ID` equals the selection, then drop every Review whose
`Design ID` equals it, both into the same `data` mapping (which is
then saved by one `save_all_data` call). -/
def delete_design (data : List (String × DF)) (selectedId : String) : List (String × DF) :=
  let d := getDF data "Designs"
  let data1 := setDF data "Designs" ⟨d.cols, d.rows.filter (fun r => cell r "ID" != selectedId)⟩
  let rv := getDF data1 "Reviews"
  setDF data1 "Reviews" ⟨rv.cols, rv.rows.filter (fun r => cell r "Design ID" != selectedId)⟩

/-- ASCII lower-casing of one character (all stored cells are
ASCII after sanitization, so this models Python `str.lower`). -/
def lowerChar (c : Char) : Char :=
  if 'A' ≤ c && c ≤ 'Z' then Char.ofNat (c.toNat + 32) else c

/-- Model of the pandas `.str.lower()` / Python `str.lower()` used by
the visibility and moderation comparisons. -/
def pyLower (s : String) : String := String.mk (s.data.map lowerChar)

/-- The showcase public filter (lines 551-554): a non-admin session
sees only rows with `Public` lower-cased equal to `"yes"`; an admin
session sees the whole table. -/
def showcase_designs (isAdmin : Bool) (designs : DF) : DF :=
  if isAdmin then designs
  else ⟨designs.cols, designs.rows.filter (fun r => pyLower (cell r "Public") == "yes")⟩

/-- The review row built by the showcase form submit (lines 658-667). -/
def new_review (isAdmin : Bool) (idv datev selectedId name rating reviewText : String) : Row :=
  [("ID", idv),
   ("Date", datev),
   ("Design ID", safe_text (some selectedId)),
   ("Reviewer Name", if name.trim != "" then safe_text (some name) else "Anonymous"),
   ("Rating", safe_text (some rating)),
   ("Review", safe_text (some reviewText)),
   ("Status", if !isAdmin then "Pending" else "Approved"),
   ("Admin Reply", "")]

/-- The showcase review list (lines 636-637): reviews of the selected
design whose `Status` lower-cased equals `"approved"`. -/
def approved_reviews (reviews : DF) (selectedId : String) : List Row :=
  (reviews.rows.filter (fun r => cell r "Design ID" == selectedId)).filter
    (fun r => pyLower (cell r "Status") == "approved")

/-- Overwriting the `Status` cell of one row (review moderation). -/
def setStatus (r : Row) (v : String) : Row :=
  r.map (fun p => if p.1 == "Status" then ("Status", v) else p)

/-- `os.path.splitext` on a bare filename: split at the last dot,
except when only dots precede it (leading dots start the basename). -/
def splitext (s : String) : String × String :=
  match s.data.reverse.findIdx? (fun c => c == '.') with
  | none => (s, "")
  | some k =>
    let i := s.data.length - 1 - k
    if (s.data.take i).any (fun c => c != '.') then
      (String.mk (s.data.take i), String.mk (s.data.drop i))
    else (s, "")

/-- Python `str.strip("-")`. -/
def stripDashes (s : String) : String := String.mk (dropEnds (fun c => c == '-') s.data)

/-- Extension coercion (lines 424-426): anything outside
`{.png, .jpg, .jpeg}` becomes `.jpg`. -/
def normExt (e : String) : String :=
  if e = ".png" ∨ e = ".jpg" ∨ e = ".jpeg" then e else ".jpg"

/-- First tried filename (line 427): `f"{base}-{orig}{ext}".strip("-")`. -/
def candidate0 (base orig ext : String) : String := stripDashes (base ++ "-" ++ orig ++ ext)

/-- Suffixed filename tried on collision (line 432):
`f"{base}-{orig}-{i}{ext}"`. -/
def candidateN (base orig ext : String) (i : Nat) : String :=
  base ++ "-" ++ orig ++ "-" ++ Nat.repr i ++ ext

/-- The collision `while` loop (lines 430-434), given enough fuel:
try `candidateN i`, `candidateN (i+1)`, …, returning the first name
not on disk.  With fuel `names.length + 1` the fallback at fuel 0 is
never reached (proved below), so this is the exact loop. -/
def find_name_loop (names : List String) (base orig ext : String) : Nat → Nat → String
  | i, 0 => candidateN base orig ext i
  | i, fuel + 1 =>
    let c := candidateN base orig ext i
    if c ∈ names then find_name_loop names base orig ext (i + 1) fuel else c

/-- The full name-choosing logic of the image save (lines 427-434). -/
def find_image_name (names : List String) (base orig ext : String) : String :=
  let first := candidate0 base orig ext
  if first ∈ names then find_name_loop names base orig ext 1 (names.length + 1) else first

/-- The image save of the design form (lines 419-437): the image
directory is an association list from filename to bytes; the chosen
name is written with the uploaded bytes and returned. -/
def store_image (dir : List (String × List Nat)) (displayName origName : String)
    (bytes : List Nat) : String × List (String × List Nat) :=
  let base := safe_filename (some displayName)
  let orig := safe_filename (some (splitext origName).1)
  let ext := normExt (pyLower (splitext origName).2)
  let name := find_image_name (dir.map Prod.fst) base orig ext
  (name, (name, bytes) :: dir)

/-- Decimal digit list of `n`, most significant first; proved equal to
`Nat.toDigits 10 n` below and used to reason about `Nat.repr`. -/
def reprD (n : Nat) : List Char :=
  if _h : n < 10 then [Nat.digitChar n]
  else reprD (n / 10) ++ [Nat.digitChar (n % 10)]
decreasing_by exact Nat.div_lt_self (by omega) (by omega)

/-- Every row of the list carries exactly the given columns, in order
(the shape `load_all_data` establishes). -/
def conformantRows (cols : List String) (rows : List Row) : Prop :=
  ∀ r ∈ rows, r.map Prod.fst = cols

/-- Every cell of every row is a fixed point of the sanitizer (the
state `load_all_data` establishes). -/
def sanitizedRows (rows : List Row) : Prop :=
  ∀ r ∈ rows, ∀ p ∈ r, safe_text (some p.2) = p.2

instance (cols : List String) (rows : List Row) : Decidable (conformantRows cols rows) := by
  unfold conformantRows
  infer_instance

instance (rows : List Row) : Decidable (sanitizedRows rows) := by
  unfold sanitizedRows
  infer_instance

/-- Number of placeholder-ID rows in a prefix (the generator index the
masked assignment uses). -/
def phCount (rows : List Row) : Nat :=
  (rows.filter (fun r => placeholderID (cell r "ID"))).length

/-- The placeholder tokens exactly as claim C3 words them. -/
def claimPlaceholders : List String := ["", "none", "nan"]

/-- Claim C3 as stated, at the `ensure_ids` level: whenever the fresh
generator avoids the claimed placeholder tokens, no row of the result
carries a claimed placeholder ID (rows that had one were replaced by
fresh ids, rows that had none keep their non-placeholder id). -/
def replacesClaimTokens : Prop :=
  ∀ (gen : Nat → String) (df : DF),
    (∀ n, gen n ∉ claimPlaceholders) →
    ∀ r ∈ (ensure_ids gen df).rows, cell r "ID" ∉ claimPlaceholders

end SpellCrystal

namespace SpellCrystal

/-- C2: every character of `safe_text` output is allow-listed, a
missing/null input yields empty text, and `safe_text` is idempotent. -/
theorem safe_text_allowlisted_idempotent :
    (∀ s : String, ((safe_text (some s)).data.all allowedT) = true) ∧
    safe_text none = "" ∧
    (∀ x : Option String, safe_text (some (safe_text x)) = safe_text x) := by
  refine ⟨?_, rfl, ?_⟩
  · intro s
    simp only [safe_text, List.all_eq_true]
    intro c hc
    exact List.of_mem_filter hc
  · intro x
    cases x with
    | none => rfl
    | some s =>
      show String.mk ((String.mk (s.data.filter allowedT)).data.filter allowedT) = _
      have : (s.data.filter allowedT).filter allowedT = s.data.filter allowedT := by
        apply List.filter_eq_self.mpr
        intro a ha
        exact List.of_mem_filter ha
      simp [this, safe_text]

theorem clean_df_cols (df : DF) : (clean_df df).cols = df.cols := by
  unfold clean_df
  split <;> rfl

theorem ensure_ids_cols (gen : Nat → String) (df : DF) : (ensure_ids gen df).cols = df.cols := by
  unfold ensure_ids
  split <;> rfl

theorem ensure_columns_cols (o : Option DF) (cols : List String) :
    (ensure_columns o cols).cols = cols := by
  cases o <;> rfl

theorem lookup_schema_map {α : Type} {f : String × List String → α} (s : String)
    (cols : List String) (h : (s, cols) ∈ SCHEMA) :
    (SCHEMA.map (fun p => (p.1, f p))).lookup s = some (f (s, cols)) := by
  simp only [SCHEMA, List.mem_cons, List.not_mem_nil, or_false] at h
  rcases h with h | h | h | h | h | h <;> (cases h; rfl)

/-- C1: for every table of the schema registry, the table produced by
`load_all_data` and the corresponding table written by `save_all_data`
carry exactly the registry's columns, in the registry's order, so a
load followed immediately by a save is a no-op on column shape and
ordering.  (Missing columns are synthesized empty and foreign columns
dropped by `ensure_columns`, which both paths apply.) -/
theorem load_save_column_shape (g : String → Nat → String)
    (file : Option (List (String × DF))) (s : String) (cols : List String)
    (h : (s, cols) ∈ SCHEMA) :
    ((load_all_data g file).lookup s).map DF.cols = some cols ∧
    ((save_all_tables (load_all_data g file)).lookup s).map DF.cols = some cols := by
  constructor
  · cases file with
    | none =>
      rw [show load_all_data g none = SCHEMA.map (fun p => (p.1, DF.mk p.2 [])) from rfl,
        lookup_schema_map (f := fun p => DF.mk p.2 []) s cols h]
      rfl
    | some sheets =>
      rw [show load_all_data g (some sheets) = SCHEMA.map (fun p => (p.1,
          match sheets.lookup p.1 with
          | some df => ensure_ids (g p.1) (clean_df (ensure_columns (some df) p.2))
          | none => DF.mk p.2 [])) from rfl,
        lookup_schema_map s cols h]
      cases hl : sheets.lookup s with
      | none => simp [hl]
      | some df => simp [hl, ensure_ids_cols, clean_df_cols, ensure_columns_cols]
  · rw [show save_all_tables (load_all_data g file) = SCHEMA.map (fun p => (p.1,
        clean_df (ensure_columns
          (some (((load_all_data g file).lookup p.1).getD (DF.mk p.2 []))) p.2))) from rfl,
      lookup_schema_map s cols h]
    simp [ensure_ids_cols, clean_df_cols, ensure_columns_cols]

theorem load_save_column_shape_witness :
    ((load_all_data (fun _ _ => "u") none).lookup "Orders").map DF.cols =
      some ["ID", "Date", "Customer", "Item", "Amount", "Status", "Notes"] ∧
    ((save_all_tables (load_all_data (fun _ _ => "u") none)).lookup "Orders").map DF.cols =
      some ["ID", "Date", "Customer", "Item", "Amount", "Status", "Notes"] :=
  load_save_column_shape (fun _ _ => "u") none "Orders" _ (by decide)

/-- C5: on an unrecoverable read failure (modelled by `none`), the
loader returns every one of the six schema tables as an empty,
schema-conformant table — it falls back instead of raising (the model
is a total function). -/
theorem load_all_corrupt_file_all_empty (g : String → Nat → String) :
    load_all_data g none =
      [("Orders", DF.mk ["ID", "Date", "Customer", "Item", "Amount", "Status", "Notes"] []),
       ("Healings",
         DF.mk ["ID", "Date", "Client Name", "Request Type", "Intention", "Status", "Notes"] []),
       ("Designs", DF.mk ["ID", "Created On", "Design Name", "Category", "Components", "My Cost",
         "Selling Price", "Public", "Image Path", "Notes"] []),
       ("Suppliers",
         DF.mk ["ID", "Supplier Name", "Material", "Price Per Unit", "MOQ", "Contact Info",
           "Notes"] []),
       ("Reviews", DF.mk ["ID", "Date", "Design ID", "Reviewer Name", "Rating", "Review",
         "Status", "Admin Reply"] []),
       ("Readings",
         DF.mk ["ID", "Date", "Client Name", "Reading Type", "Question", "Notes", "Status"] [])] :=
  rfl

/-- C4: when the destination file is locked (`PermissionError`), the
save signals the distinct actionable message, which differs from the
generic failure message for every other error; the write is abandoned
and the in-memory table mapping is returned unchanged. -/
theorem save_locked_distinct_failure (data : List (String × DF)) (e : String) :
    (save_all_data data (Except.error WriteError.permissionError)).1.message = lockedMessage ∧
    (save_all_data data (Except.error WriteError.permissionError)).1.isError = true ∧
    (save_all_data data (Except.error WriteError.permissionError)).1.written = none ∧
    (save_all_data data (Except.error WriteError.permissionError)).2 = data ∧
    (save_all_data data (Except.error (WriteError.otherError e))).1.message ≠ lockedMessage := by
  refine ⟨rfl, rfl, rfl, rfl, ?_⟩
  show "Save failed: " ++ e ≠ lockedMessage
  intro hcontra
  have hd := congrArg String.data hcontra
  rw [String.data_append] at hd
  have h2 := congrArg List.head? hd
  rw [List.head?_append] at h2
  have h3 : (some 'S' : Option Char) = lockedMessage.data.head? := h2
  exact absurd h3 (by decide)

/-- C8: a Design row passes the showcase's public filter for a
non-admin session exactly when its `Public` field, lower-cased, equals
`"yes"`; an admin session sees the whole Designs table unchanged. -/
theorem showcase_public_filter (designs : DF) (r : Row) :
    (r ∈ (showcase_designs false designs).rows ↔
      r ∈ designs.rows ∧ pyLower (cell r "Public") = "yes") ∧
    showcase_designs true designs = designs := by
  constructor
  · simp [showcase_designs, List.mem_filter]
  · rfl

/-- C9: a Review submitted by a non-admin session is created with
Status `"Pending"` (auto-`"Approved"` only in admin mode); the
showcase's review list contains a Review iff its `Design ID` matches
the selected design and its Status, lower-cased, equals `"approved"`;
hence a fresh non-admin Review is absent from that list, and the same
Review appears once its Status is changed to `"Approved"`. -/
theorem review_pending_until_approved (selectedId : String)
    (hsel : safe_text (some selectedId) = selectedId) :
    (∀ idv datev name rating txt,
      cell (new_review false idv datev selectedId name rating txt) "Status" = "Pending") ∧
    (∀ idv datev name rating txt,
      cell (new_review true idv datev selectedId name rating txt) "Status" = "Approved") ∧
    (∀ (reviews : DF) (r : Row), r ∈ approved_reviews reviews selectedId ↔
      r ∈ reviews.rows ∧ cell r "Design ID" = selectedId ∧
        pyLower (cell r "Status") = "approved") ∧
    (∀ (reviews : DF) idv datev name rating txt,
      new_review false idv datev selectedId name rating txt ∉
        approved_reviews reviews selectedId) ∧
    (∀ (reviews : DF) idv datev name rating txt,
      setStatus (new_review false idv datev selectedId name rating txt) "Approved" ∈
        approved_reviews
          ⟨reviews.cols, reviews.rows ++
            [setStatus (new_review false idv datev selectedId name rating txt) "Approved"]⟩
          selectedId) := by
  refine ⟨fun _ _ _ _ _ => rfl, fun _ _ _ _ _ => rfl, ?_, ?_, ?_⟩
  · intro reviews r
    simp only [approved_reviews, List.mem_filter, beq_iff_eq]
    tauto
  · intro reviews idv datev name rating txt hmem
    have hst := List.of_mem_filter hmem
    rw [show cell (new_review false idv datev selectedId name rating txt) "Status" = "Pending"
      from rfl] at hst
    exact absurd hst (by decide)
  · intro reviews idv datev name rating txt
    apply List.mem_filter.mpr
    constructor
    · apply List.mem_filter.mpr
      constructor
      · exact List.mem_append.mpr (Or.inr (List.mem_singleton.mpr rfl))
      · rw [show cell
            (setStatus (new_review false idv datev selectedId name rating txt) "Approved")
            "Design ID" = safe_text (some selectedId) from rfl, hsel]
        exact beq_self_eq_true selectedId
    · rw [show cell
          (setStatus (new_review false idv datev selectedId name rating txt) "Approved")
          "Status" = "Approved" from rfl]
      decide

theorem review_pending_until_approved_witness :
    cell (new_review false "i1" "2024-01-01" "d1" "Ann" "5" "nice") "Status" = "Pending" :=
  (review_pending_until_approved "d1" (by decide)).1 "i1" "2024-01-01" "Ann" "5" "nice"

theorem lookup_cell_rebuild (cols : List String) :
    ∀ (r : Row), cols.Nodup → r.map Prod.fst = cols →
      cols.map (fun c => (c, cell r c)) = r := by
  induction cols with
  | nil =>
    intro r _ hshape
    cases r with
    | nil => rfl
    | cons p r' => simp at hshape
  | cons c cs ih =>
    intro r hnd hshape
    cases r with
    | nil => simp at hshape
    | cons p r' =>
      simp only [List.map_cons, List.cons.injEq] at hshape
      obtain ⟨hc, hr'⟩ := hshape
      have hnd' := List.nodup_cons.mp hnd
      have hcell : cell (p :: r') c = p.2 := by
        simp [cell, List.lookup, hc, beq_self_eq_true]
      have hrest : ∀ d ∈ cs, cell (p :: r') d = cell r' d := by
        intro d hd
        have hdc : d ≠ c := fun h => hnd'.1 (h ▸ hd)
        simp [cell, List.lookup, hc, beq_eq_false_iff_ne.mpr hdc]
      calc (c :: cs).map (fun d => (d, cell (p :: r') d))
          = (c, p.2) :: cs.map (fun d => (d, cell (p :: r') d)) := by
            simp [hcell]
        _ = (c, p.2) :: cs.map (fun d => (d, cell r' d)) := by
            congr 1
            exact List.map_congr_left (fun d hd => by rw [hrest d hd])
        _ = p :: r' := by
            rw [ih r' hnd'.2 hr']
            congr 1
            exact Prod.ext hc.symm rfl

theorem ensure_columns_conformant (df : DF) (cols : List String) (hnd : cols.Nodup)
    (hc : conformantRows cols df.rows) : ensure_columns (some df) cols = ⟨cols, df.rows⟩ := by
  have hrows : df.rows.map (fun r => cols.map (fun c => (c, cell r c))) = df.rows := by
    calc df.rows.map (fun r => cols.map (fun c => (c, cell r c)))
        = df.rows.map id :=
          List.map_congr_left (fun r hr => lookup_cell_rebuild cols r hnd (hc r hr))
      _ = df.rows := List.map_id df.rows
  show (⟨cols, df.rows.map (fun r => cols.map (fun c => (c, cell r c)))⟩ : DF) = ⟨cols, df.rows⟩
  rw [hrows]

theorem clean_row_sanitized (r : Row) (h : ∀ p ∈ r, safe_text (some p.2) = p.2) :
    clean_row r = r := by
  unfold clean_row
  calc r.map (fun p => (p.1, safe_text (some p.2)))
      = r.map id := List.map_congr_left (fun p hp => by rw [h p hp]; rfl)
    _ = r := List.map_id r

theorem clean_df_sanitized (df : DF) (h : sanitizedRows df.rows) : clean_df df = df := by
  unfold clean_df
  split
  · rfl
  · have : df.rows.map clean_row = df.rows := by
      calc df.rows.map clean_row
          = df.rows.map id := List.map_congr_left (fun r hr => clean_row_sanitized r (h r hr))
        _ = df.rows := List.map_id df.rows
    rw [this]

theorem save_sixTables_designs (o h d s rv rd : DF) :
    (save_all_tables (sixTables o h d s rv rd)).lookup "Designs" =
      some (clean_df (ensure_columns (some d) designsCols)) := rfl

theorem save_sixTables_reviews (o h d s rv rd : DF) :
    (save_all_tables (sixTables o h d s rv rd)).lookup "Reviews" =
      some (clean_df (ensure_columns (some rv) reviewsCols)) := rfl

/-- C7: deleting the Design with ID `D` removes exactly the Designs
rows with that ID and exactly the Reviews rows whose `Design ID` is
`D`, both persisted by the same `save_all_data` normalization; all
rows with other IDs are written back untouched, and no written row
still carries `D`. -/
theorem delete_design_cascade (o h d s rv rd : DF) (D : String)
    (hdc : conformantRows designsCols d.rows) (hds : sanitizedRows d.rows)
    (hrc : conformantRows reviewsCols rv.rows) (hrs : sanitizedRows rv.rows) :
    (save_all_tables (delete_design (sixTables o h d s rv rd) D)).lookup "Designs" =
      some ⟨designsCols, d.rows.filter (fun r => cell r "ID" != D)⟩ ∧
    (save_all_tables (delete_design (sixTables o h d s rv rd) D)).lookup "Reviews" =
      some ⟨reviewsCols, rv.rows.filter (fun r => cell r "Design ID" != D)⟩ ∧
    (∀ r ∈ d.rows.filter (fun r => cell r "ID" != D), cell r "ID" ≠ D) ∧
    (∀ r ∈ rv.rows.filter (fun r => cell r "Design ID" != D), cell r "Design ID" ≠ D) := by
  have hdel : delete_design (sixTables o h d s rv rd) D =
      sixTables o h ⟨d.cols, d.rows.filter (fun r => cell r "ID" != D)⟩ s
        ⟨rv.cols, rv.rows.filter (fun r => cell r "Design ID" != D)⟩ rd := rfl
  have hconfD : conformantRows designsCols (d.rows.filter (fun r => cell r "ID" != D)) :=
    fun r hr => hdc r (List.mem_of_mem_filter hr)
  have hsanD : sanitizedRows (d.rows.filter (fun r => cell r "ID" != D)) :=
    fun r hr => hds r (List.mem_of_mem_filter hr)
  have hconfR : conformantRows reviewsCols (rv.rows.filter (fun r => cell r "Design ID" != D)) :=
    fun r hr => hrc r (List.mem_of_mem_filter hr)
  have hsanR : sanitizedRows (rv.rows.filter (fun r => cell r "Design ID" != D)) :=
    fun r hr => hrs r (List.mem_of_mem_filter hr)
  refine ⟨?_, ?_, ?_, ?_⟩
  · rw [hdel, save_sixTables_designs,
      ensure_columns_conformant _ designsCols (by decide) hconfD,
      clean_df_sanitized _ hsanD]
  · rw [hdel, save_sixTables_reviews,
      ensure_columns_conformant _ reviewsCols (by decide) hconfR,
      clean_df_sanitized _ hsanR]
  · intro r hr
    exact bne_iff_ne.mp (List.mem_filter.mp hr).2
  · intro r hr
    exact bne_iff_ne.mp (List.mem_filter.mp hr).2

theorem delete_design_cascade_witness :
    (save_all_tables (delete_design (sixTables (DF.mk [] []) (DF.mk [] [])
        (DF.mk designsCols
          [[("ID", "a"), ("Created On", "2024-01-01 10:00"), ("Design Name", "Moon Ring"),
            ("Category", "Ring"), ("Components", "quartz"), ("My Cost", "5"),
            ("Selling Price", "45.00"), ("Public", "Yes"), ("Image Path", "None"),
            ("Notes", "")],
           [("ID", "b"), ("Created On", "2024-01-02 10:00"), ("Design Name", "Sun Ring"),
            ("Category", "Ring"), ("Components", "citrine"), ("My Cost", "6"),
            ("Selling Price", "50.00"), ("Public", "No"), ("Image Path", "None"),
            ("Notes", "")]])
        (DF.mk [] [])
        (DF.mk reviewsCols
          [[("ID", "r1"), ("Date", "2024-01-03 11:00"), ("Design ID", "a"),
            ("Reviewer Name", "Ann"), ("Rating", "5"), ("Review", "nice!"),
            ("Status", "Pending"), ("Admin Reply", "")],
           [("ID", "r2"), ("Date", "2024-01-04 11:00"), ("Design ID", "b"),
            ("Reviewer Name", "Bo"), ("Rating", "4"), ("Review", "good"),
            ("Status", "Approved"), ("Admin Reply", "")]])
        (DF.mk [] [])) "a")).lookup "Designs" =
      some ⟨designsCols,
        (DF.mk designsCols
          [[("ID", "a"), ("Created On", "2024-01-01 10:00"), ("Design Name", "Moon Ring"),
            ("Category", "Ring"), ("Components", "quartz"), ("My Cost", "5"),
            ("Selling Price", "45.00"), ("Public", "Yes"), ("Image Path", "None"),
            ("Notes", "")],
           [("ID", "b"), ("Created On", "2024-01-02 10:00"), ("Design Name", "Sun Ring"),
            ("Category", "Ring"), ("Components", "citrine"), ("My Cost", "6"),
            ("Selling Price", "50.00"), ("Public", "No"), ("Image Path", "None"),
            ("Notes", "")]]).rows.filter (fun r => cell r "ID" != "a")⟩ :=
  (delete_design_cascade (DF.mk [] []) (DF.mk [] [])
    (DF.mk designsCols
      [[("ID", "a"), ("Created On", "2024-01-01 10:00"), ("Design Name", "Moon Ring"),
        ("Category", "Ring"), ("Components", "quartz"), ("My Cost", "5"),
        ("Selling Price", "45.00"), ("Public", "Yes"), ("Image Path", "None"),
        ("Notes", "")],
       [("ID", "b"), ("Created On", "2024-01-02 10:00"), ("Design Name", "Sun Ring"),
        ("Category", "Ring"), ("Components", "citrine"), ("My Cost", "6"),
        ("Selling Price", "50.00"), ("Public", "No"), ("Image Path", "None"),
        ("Notes", "")]])
    (DF.mk [] [])
    (DF.mk reviewsCols
      [[("ID", "r1"), ("Date", "2024-01-03 11:00"), ("Design ID", "a"),
        ("Reviewer Name", "Ann"), ("Rating", "5"), ("Review", "nice!"),
        ("Status", "Pending"), ("Admin Reply", "")],
       [("ID", "r2"), ("Date", "2024-01-04 11:00"), ("Design ID", "b"),
        ("Reviewer Name", "Bo"), ("Rating", "4"), ("Review", "good"),
        ("Status", "Approved"), ("Admin Reply", "")]])
    (DF.mk [] []) "a" (by decide) (by decide) (by decide) (by decide)).1

theorem assignIDs_length (gen : Nat → String) :
    ∀ (rows : List Row) (k : Nat), (assignIDs gen k rows).length = rows.length := by
  intro rows
  induction rows with
  | nil => intro k; rfl
  | cons r rs ih =>
    intro k
    unfold assignIDs
    split
    · simp [ih]
    · simp [ih]

theorem cell_setID (v : String) :
    ∀ (r : Row), "ID" ∈ r.map Prod.fst → cell (setID r v) "ID" = v := by
  intro r
  induction r with
  | nil => intro h; simp at h
  | cons p r' ih =>
    obtain ⟨a, b⟩ := p
    intro h
    by_cases hp : a = "ID"
    · subst hp
      simp [setID, cell, List.lookup]
    · have h' : "ID" ∈ r'.map Prod.fst := by
        simp only [List.map_cons, List.mem_cons] at h
        rcases h with h | h
        · exact absurd h.symm hp
        · exact h
      have hne : ("ID" == a) = false := beq_eq_false_iff_ne.mpr (fun hc => hp hc.symm)
      have hne2 : (a == "ID") = false := beq_eq_false_iff_ne.mpr hp
      have hstep : setID ((a, b) :: r') v = (a, b) :: setID r' v := by
        simp [setID, hp]
      rw [hstep]
      have hcell : cell ((a, b) :: setID r' v) "ID" = cell (setID r' v) "ID" := by
        simp [cell, List.lookup, hne]
      rw [hcell]
      exact ih h'

theorem phCount_append (l1 l2 : List Row) : phCount (l1 ++ l2) = phCount l1 + phCount l2 := by
  simp [phCount, List.filter_append]

theorem phCount_singleton (r : Row) :
    phCount [r] = if placeholderID (cell r "ID") = true then 1 else 0 := by
  by_cases hph : placeholderID (cell r "ID") = true
  · simp [phCount, List.filter, hph]
  · rw [Bool.not_eq_true] at hph
    simp [phCount, List.filter, hph]

theorem phCount_cons (r : Row) (rs : List Row) :
    phCount (r :: rs) = phCount rs + (if placeholderID (cell r "ID") = true then 1 else 0) := by
  by_cases hph : placeholderID (cell r "ID") = true
  · simp [phCount, List.filter_cons, hph]
  · rw [Bool.not_eq_true] at hph
    simp [phCount, List.filter_cons, hph]

theorem phCount_take_succ (rows : List Row) (i : Nat) (hi : i < rows.length) :
    phCount (rows.take (i + 1)) =
      phCount (rows.take i) +
        (if placeholderID (cell (rows.get ⟨i, hi⟩) "ID") = true then 1 else 0) := by
  rw [List.take_succ, phCount_append]
  congr 1
  rw [List.getElem?_eq_getElem hi]
  rw [show (some rows[i]).toList = [rows[i]] from rfl]
  rw [phCount_singleton]
  congr 1

theorem phCount_take_mono (rows : List Row) {a b : Nat} (h : a ≤ b) :
    phCount (rows.take a) ≤ phCount (rows.take b) := by
  have heq : rows.take a = (rows.take b).take a := by
    rw [List.take_take, Nat.min_eq_left h]
  rw [heq]
  unfold phCount
  exact List.Sublist.length_le
    (List.Sublist.filter _ (List.take_sublist a (rows.take b)))

theorem phCount_take_lt (rows : List Row) {i j : Nat} (hij : i < j) (hi : i < rows.length)
    (hph : placeholderID (cell (rows.get ⟨i, hi⟩) "ID") = true) :
    phCount (rows.take i) < phCount (rows.take j) := by
  have h1 := phCount_take_succ rows i hi
  rw [if_pos hph] at h1
  have h2 := phCount_take_mono rows (show i + 1 ≤ j from hij)
  omega

theorem assignIDs_get (gen : Nat → String) :
    ∀ (rows : List Row) (k i : Nat) (hi : i < rows.length)
      (hi2 : i < (assignIDs gen k rows).length),
      (assignIDs gen k rows).get ⟨i, hi2⟩ =
        if placeholderID (cell (rows.get ⟨i, hi⟩) "ID") = true
        then setID (rows.get ⟨i, hi⟩) (gen (k + phCount (rows.take i)))
        else rows.get ⟨i, hi⟩ := by
  intro rows
  induction rows with
  | nil => intro k i hi hi2; exact absurd hi (by simp)
  | cons r rs ih =>
    intro k i hi hi2
    cases i with
    | zero =>
      by_cases hph : placeholderID (cell r "ID") = true
      · simp [assignIDs, hph, phCount]
      · rw [Bool.not_eq_true] at hph
        simp [assignIDs, hph]
    | succ j =>
      have hj : j < rs.length := by simpa using hi
      by_cases hph : placeholderID (cell r "ID") = true
      · have hrw : assignIDs gen k (r :: rs) = setID r (gen k) :: assignIDs gen (k + 1) rs := by
          simp [assignIDs, hph]
        have hj2 : j < (assignIDs gen (k + 1) rs).length := by
          rw [assignIDs_length]; exact hj
        have hget : (assignIDs gen k (r :: rs)).get ⟨j + 1, hi2⟩ =
            (assignIDs gen (k + 1) rs).get ⟨j, hj2⟩ := by
          rw [List.get_of_eq hrw ⟨j + 1, hi2⟩]
          exact List.get_cons_succ
        rw [hget, ih (k + 1) j hj hj2]
        have harith : k + 1 + phCount (rs.take j) = k + phCount ((r :: rs).take (j + 1)) := by
          rw [List.take_succ_cons, phCount_cons, if_pos hph]
          omega
        rw [show ((r :: rs).get ⟨j + 1, hi⟩) = rs.get ⟨j, hj⟩ from rfl, harith]
      · rw [Bool.not_eq_true] at hph
        have hrw : assignIDs gen k (r :: rs) = r :: assignIDs gen k rs := by
          simp [assignIDs, hph]
        have hj2 : j < (assignIDs gen k rs).length := by
          rw [assignIDs_length]; exact hj
        have hget : (assignIDs gen k (r :: rs)).get ⟨j + 1, hi2⟩ =
            (assignIDs gen k rs).get ⟨j, hj2⟩ := by
          rw [List.get_of_eq hrw ⟨j + 1, hi2⟩]
          exact List.get_cons_succ
        rw [hget, ih k j hj hj2]
        have harith : k + phCount (rs.take j) = k + phCount ((r :: rs).take (j + 1)) := by
          rw [List.take_succ_cons, phCount_cons, if_neg (by simp [hph])]
          omega
        rw [show ((r :: rs).get ⟨j + 1, hi⟩) = rs.get ⟨j, hj⟩ from rfl, harith]

/-- C3's counterexample: the claim's placeholder tokens include the
literal lower-case `"none"`, but `ensure_ids` only replaces IDs in
`["", "nan", "None"]` (capital `N`), so a record whose stored ID is
the literal `"none"` keeps that placeholder and is assigned no fresh
identifier. -/
theorem ensure_ids_claim_tokens_counterexample : ¬ replacesClaimTokens := by
  intro hcl
  have h2 := hcl (fun _ => "freshid")
    (DF.mk ["ID"] [[("ID", "none")]])
    (by
      intro n
      show "freshid" ∉ claimPlaceholders
      decide)
    [("ID", "none")] (by decide)
  exact h2 (by decide)

/-- C3 as amended: the placeholder tokens are exactly `""`, `"nan"`
and `"None"` (case-sensitive).  Whenever the fresh-id generator is
injective, avoids every stored ID and never yields a placeholder
(as `uuid4` strings do), one pass of `ensure_ids` leaves every
non-placeholder row unchanged, and gives every placeholder-ID row the
next freshly generated identifier, which is a non-placeholder,
non-empty and distinct from the (new) ID of every other row of the
table. -/
theorem ensure_ids_fresh_unique (gen : Nat → String) (df : DF)
    (hID : ∀ r ∈ df.rows, "ID" ∈ r.map Prod.fst)
    (hinj : ∀ m n, gen m = gen n → m = n)
    (havoid : ∀ n, ∀ r ∈ df.rows, gen n ≠ cell r "ID")
    (htok : ∀ n, placeholderID (gen n) = false) :
    (ensure_ids gen df).rows.length = df.rows.length ∧
    (∀ i (hi : i < df.rows.length) (hi2 : i < (ensure_ids gen df).rows.length),
      (placeholderID (cell (df.rows.get ⟨i, hi⟩) "ID") = false →
        (ensure_ids gen df).rows.get ⟨i, hi2⟩ = df.rows.get ⟨i, hi⟩) ∧
      (placeholderID (cell (df.rows.get ⟨i, hi⟩) "ID") = true →
        cell ((ensure_ids gen df).rows.get ⟨i, hi2⟩) "ID" = gen (phCount (df.rows.take i)) ∧
        placeholderID (cell ((ensure_ids gen df).rows.get ⟨i, hi2⟩) "ID") = false ∧
        cell ((ensure_ids gen df).rows.get ⟨i, hi2⟩) "ID" ≠ "" ∧
        (∀ j (hj : j < df.rows.length) (hj2 : j < (ensure_ids gen df).rows.length), j ≠ i →
          cell ((ensure_ids gen df).rows.get ⟨i, hi2⟩) "ID" ≠
            cell ((ensure_ids gen df).rows.get ⟨j, hj2⟩) "ID"))) := by
  have hrows : (ensure_ids gen df).rows.length = df.rows.length := by
    unfold ensure_ids
    split
    · rfl
    · exact assignIDs_length gen df.rows 0
  refine ⟨hrows, ?_⟩
  intro i hi hi2
  have hne : ¬ df.rows.isEmpty = true := by
    intro hemp
    rw [List.isEmpty_iff] at hemp
    rw [hemp] at hi
    simp at hi
  have hbody : (ensure_ids gen df).rows = assignIDs gen 0 df.rows := by
    unfold ensure_ids
    split
    · simp_all
    · rfl
  have hi2' : i < (assignIDs gen 0 df.rows).length := by
    rw [assignIDs_length]; exact hi
  have hgeti : (ensure_ids gen df).rows.get ⟨i, hi2⟩ =
      (assignIDs gen 0 df.rows).get ⟨i, hi2'⟩ := by
    rw [List.get_of_eq hbody ⟨i, hi2⟩]
  rw [hgeti, assignIDs_get gen df.rows 0 i hi hi2']
  constructor
  · intro hph
    rw [if_neg (fun hc => by rw [hph] at hc; exact absurd hc (by decide))]
  · intro hph
    rw [if_pos hph]
    simp only [Nat.zero_add]
    have hcid : cell (setID (df.rows.get ⟨i, hi⟩) (gen (phCount (df.rows.take i)))) "ID" =
        gen (phCount (df.rows.take i)) :=
      cell_setID _ _ (hID _ (df.rows.get_mem _ _))
    refine ⟨hcid, ?_, ?_, ?_⟩
    · rw [hcid]; exact htok _
    · rw [hcid]
      intro h0
      have := htok (phCount (df.rows.take i))
      rw [h0] at this
      exact absurd this (by decide)
    · intro j hj hj2 hji
      have hj2' : j < (assignIDs gen 0 df.rows).length := by
        rw [assignIDs_length]; exact hj
      have hgetj : (ensure_ids gen df).rows.get ⟨j, hj2⟩ =
          (assignIDs gen 0 df.rows).get ⟨j, hj2'⟩ := by
        rw [List.get_of_eq hbody ⟨j, hj2⟩]
      rw [hcid, hgetj, assignIDs_get gen df.rows 0 j hj hj2']
      by_cases hphj : placeholderID (cell (df.rows.get ⟨j, hj⟩) "ID") = true
      · rw [if_pos hphj]
        have hcidj : cell (setID (df.rows.get ⟨j, hj⟩) (gen (phCount (df.rows.take j)))) "ID" =
            gen (phCount (df.rows.take j)) :=
          cell_setID _ _ (hID _ (df.rows.get_mem _ _))
        rw [Nat.zero_add, hcidj]
        intro heq
        have hcnt := hinj _ _ heq
        rcases Nat.lt_or_ge i j with hlt | hge
        · exact absurd hcnt (Nat.ne_of_lt (phCount_take_lt df.rows hlt hi hph))
        · have hlt2 : j < i := Nat.lt_of_le_of_ne hge hji
          exact absurd hcnt.symm (Nat.ne_of_lt (phCount_take_lt df.rows hlt2 hj hphj))
      · rw [Bool.not_eq_true] at hphj
        rw [if_neg (fun hc => by rw [hphj] at hc; exact absurd hc (by decide))]
        exact havoid _ _ (df.rows.get_mem _ _)

theorem ensure_ids_fresh_unique_witness :
    placeholderID
      (cell ((ensure_ids (fun n => String.mk (List.replicate (n + 1) 'g'))
        (DF.mk ["ID"] [[("ID", "")], [("ID", "nan")]])).rows.get
          ⟨0, by decide⟩) "ID") = false := by
  have hinj : ∀ m n : Nat,
      String.mk (List.replicate (m + 1) 'g') = String.mk (List.replicate (n + 1) 'g') →
        m = n := by
    intro m n h
    have hlen := congrArg String.length h
    simp only [String.length, List.length_replicate] at hlen
    omega
  have hne_empty : ∀ n : Nat, String.mk (List.replicate (n + 1) 'g') ≠ "" := by
    intro n h
    have hlen := congrArg String.length h
    simp [String.length] at hlen
  have hne_nan : ∀ n : Nat, String.mk (List.replicate (n + 1) 'g') ≠ "nan" := by
    intro n h
    have hdata := congrArg String.data h
    simp only [String.data] at hdata
    have hmem : 'n' ∈ List.replicate (n + 1) 'g' := by
      rw [hdata]
      decide
    exact absurd (List.eq_of_mem_replicate hmem) (by decide)
  have hne_None : ∀ n : Nat, String.mk (List.replicate (n + 1) 'g') ≠ "None" := by
    intro n h
    have hdata := congrArg String.data h
    simp only [String.data] at hdata
    have hmem : 'N' ∈ List.replicate (n + 1) 'g' := by
      rw [hdata]
      decide
    exact absurd (List.eq_of_mem_replicate hmem) (by decide)
  have htok : ∀ n : Nat, placeholderID (String.mk (List.replicate (n + 1) 'g')) = false := by
    intro n
    simp [placeholderID, beq_eq_false_iff_ne.mpr (hne_empty n),
      beq_eq_false_iff_ne.mpr (hne_nan n), beq_eq_false_iff_ne.mpr (hne_None n)]
  have havoid : ∀ n : Nat, ∀ r ∈ (DF.mk ["ID"] [[("ID", "")], [("ID", "nan")]]).rows,
      String.mk (List.replicate (n + 1) 'g') ≠ cell r "ID" := by
    intro n r hr
    rcases List.mem_cons.mp hr with hr1 | hr2
    · subst hr1
      exact hne_empty n
    · rcases List.mem_cons.mp hr2 with hr3 | hr4
      · subst hr3
        exact hne_nan n
      · exact absurd hr4 (List.not_mem_nil r)
  exact ((ensure_ids_fresh_unique (fun n => String.mk (List.replicate (n + 1) 'g'))
    (DF.mk ["ID"] [[("ID", "")], [("ID", "nan")]])
    (by decide) hinj havoid htok).2 0 (by decide) (by decide)).2 (by decide) |>.2.1

theorem toDigitsCore_append :
    ∀ (f n : Nat) (ds : List Char),
      Nat.toDigitsCore 10 f n ds = Nat.toDigitsCore 10 f n [] ++ ds := by
  intro f
  induction f with
  | zero => intro n ds; simp [Nat.toDigitsCore]
  | succ f ih =>
    intro n ds
    simp only [Nat.toDigitsCore]
    by_cases h : n / 10 = 0
    · simp [h]
    · simp only [h, if_false]
      rw [ih (n / 10) (Nat.digitChar (n % 10) :: ds), ih (n / 10) [Nat.digitChar (n % 10)]]
      simp

theorem toDigitsCore_eq_reprD : ∀ (f n : Nat), n < f → Nat.toDigitsCore 10 f n [] = reprD n := by
  intro f
  induction f with
  | zero => intro n h; omega
  | succ f ih =>
    intro n h
    simp only [Nat.toDigitsCore]
    by_cases h10 : n / 10 = 0
    · have hn10 : n < 10 := by omega
      rw [if_pos h10, reprD]
      rw [dif_pos hn10, Nat.mod_eq_of_lt hn10]
    · have hge : ¬ n < 10 := by omega
      rw [if_neg h10, toDigitsCore_append, ih (n / 10) (by omega)]
      conv_rhs => rw [reprD]
      rw [dif_neg hge]

theorem repr_data_eq_reprD (n : Nat) : (Nat.repr n).data = reprD n :=
  toDigitsCore_eq_reprD (n + 1) n (Nat.lt_succ_self n)

theorem reprD_ne_nil (n : Nat) : reprD n ≠ [] := by
  rw [reprD]
  split
  · simp
  · simp

theorem digitChar_inj_lt : ∀ a < 10, ∀ b < 10, Nat.digitChar a = Nat.digitChar b → a = b := by
  decide

theorem reprD_inj : ∀ m n : Nat, reprD m = reprD n → m = n := by
  intro m
  induction m using Nat.strong_induction_on with
  | _ m ih =>
    intro n h
    have hre : ∀ k : Nat, reprD k =
        if _h : k < 10 then [Nat.digitChar k]
        else reprD (k / 10) ++ [Nat.digitChar (k % 10)] := by
      intro k
      rw [reprD]
    by_cases hm : m < 10 <;> by_cases hn : n < 10
    · rw [hre m, hre n, dif_pos hm, dif_pos hn] at h
      have hhead : Nat.digitChar m = Nat.digitChar n := (List.cons.injEq _ _ _ _ ▸ h).1
      exact digitChar_inj_lt m hm n hn hhead
    · exfalso
      rw [hre m, hre n, dif_pos hm, dif_neg hn] at h
      have hlen := congrArg List.length h
      simp only [List.length_cons, List.length_nil, List.length_append] at hlen
      have hnil : reprD (n / 10) = [] := List.eq_nil_of_length_eq_zero (by omega)
      exact reprD_ne_nil (n / 10) hnil
    · exfalso
      rw [hre m, hre n, dif_neg hm, dif_pos hn] at h
      have hlen := congrArg List.length h
      simp only [List.length_cons, List.length_nil, List.length_append] at hlen
      have hnil : reprD (m / 10) = [] := List.eq_nil_of_length_eq_zero (by omega)
      exact reprD_ne_nil (m / 10) hnil
    · rw [hre m, hre n, dif_neg hm, dif_neg hn] at h
      have hrev := congrArg List.reverse h
      simp only [List.reverse_append, List.reverse_cons, List.reverse_nil, List.nil_append,
        List.singleton_append, List.cons.injEq] at hrev
      obtain ⟨hdig, hrest⟩ := hrev
      have hdiv : m / 10 = n / 10 :=
        ih (m / 10) (Nat.div_lt_self (by omega) (by omega))
          (n / 10) (List.reverse_injective hrest)
      have hmod : m % 10 = n % 10 :=
        digitChar_inj_lt (m % 10) (Nat.mod_lt m (by omega)) (n % 10) (Nat.mod_lt n (by omega))
          hdig
      omega

theorem repr_data_inj (m n : Nat) : (Nat.repr m).data = (Nat.repr n).data → m = n := by
  intro h
  rw [repr_data_eq_reprD, repr_data_eq_reprD] at h
  exact reprD_inj m n h

theorem candidateN_inj (base orig ext : String) (i j : Nat)
    (h : candidateN base orig ext i = candidateN base orig ext j) : i = j := by
  apply repr_data_inj
  have hd := congrArg String.data h
  simp only [candidateN, String.data_append] at hd
  exact List.append_cancel_left (List.append_cancel_right hd)

theorem exists_free_candidate (names : List String) (base orig ext : String) (i : Nat) :
    ∃ j, i ≤ j ∧ j < i + (names.length + 1) ∧ candidateN base orig ext j ∉ names := by
  by_contra hno
  push_neg at hno
  have hsub : (Finset.range (names.length + 1)).image
      (fun j => candidateN base orig ext (i + j)) ⊆ names.toFinset := by
    intro x hx
    rw [Finset.mem_image] at hx
    obtain ⟨j, hj, rfl⟩ := hx
    rw [Finset.mem_range] at hj
    rw [List.mem_toFinset]
    exact hno (i + j) (Nat.le_add_right i j) (by omega)
  have hinj : Set.InjOn (fun j => candidateN base orig ext (i + j))
      (Finset.range (names.length + 1)) := by
    intro a _ b _ hab
    have := candidateN_inj base orig ext (i + a) (i + b) hab
    omega
  have hcard := Finset.card_le_card hsub
  rw [Finset.card_image_of_injOn hinj, Finset.card_range] at hcard
  have hle := names.toFinset_card_le
  omega

theorem find_name_loop_free (names : List String) (base orig ext : String) :
    ∀ (fuel i : Nat), (∃ j, i ≤ j ∧ j < i + fuel ∧ candidateN base orig ext j ∉ names) →
      find_name_loop names base orig ext i fuel ∉ names := by
  intro fuel
  induction fuel with
  | zero =>
    intro i hex
    obtain ⟨j, hij, hlt, _⟩ := hex
    omega
  | succ f ih =>
    intro i hex
    obtain ⟨j, hij, hlt, hfree⟩ := hex
    show (if candidateN base orig ext i ∈ names
        then find_name_loop names base orig ext (i + 1) f
        else candidateN base orig ext i) ∉ names
    by_cases hc : candidateN base orig ext i ∈ names
    · rw [if_pos hc]
      apply ih (i + 1)
      refine ⟨j, ?_, by omega, hfree⟩
      rcases Nat.eq_or_lt_of_le hij with heq | hlt2
      · exact absurd (heq ▸ hc) hfree
      · omega
    · rw [if_neg hc]
      exact hc

theorem find_image_name_free (names : List String) (base orig ext : String) :
    find_image_name names base orig ext ∉ names := by
  show (if candidate0 base orig ext ∈ names
      then find_name_loop names base orig ext 1 (names.length + 1)
      else candidate0 base orig ext) ∉ names
  by_cases h0 : candidate0 base orig ext ∈ names
  · rw [if_pos h0]
    exact find_name_loop_free names base orig ext (names.length + 1) 1
      (exists_free_candidate names base orig ext 1)
  · rw [if_neg h0]
    exact h0

/-- C6: the image store never overwrites: the chosen filename is never
one already on disk (first-fit `-1`, `-2`, … suffix search), and in
particular storing twice with identical display and original names
from an empty directory yields `My-Ring-photo.png` then
`My-Ring-photo-1.png`, two distinct files each still holding its own
bytes. -/
theorem store_image_never_overwrites :
    (∀ (dir : List (String × List Nat)) (dn origName : String) (bs : List Nat),
      (store_image dir dn origName bs).1 ∉ dir.map Prod.fst) ∧
    (store_image [] "My Ring" "photo.PNG" [0]).1 = "My-Ring-photo.png" ∧
    (store_image (store_image [] "My Ring" "photo.PNG" [0]).2 "My Ring" "photo.PNG" [1]).1 =
      "My-Ring-photo-1.png" ∧
    ("My-Ring-photo.png" : String) ≠ "My-Ring-photo-1.png" ∧
    ((store_image (store_image [] "My Ring" "photo.PNG" [0]).2 "My Ring" "photo.PNG" [1]).2.lookup
      "My-Ring-photo.png" = some [0]) ∧
    ((store_image (store_image [] "My Ring" "photo.PNG" [0]).2 "My Ring" "photo.PNG" [1]).2.lookup
      "My-Ring-photo-1.png" = some [1]) := by
  refine ⟨?_, by decide, by decide, by decide, by decide, by decide⟩
  intro dir dn origName bs
  exact find_image_name_free (dir.map Prod.fst) _ _ _

theorem allowedF_allowedT (c : Char) (h : allowedF c = true) : allowedT c = true := by
  simp only [allowedF, Bool.or_eq_true] at h
  simp only [allowedT, Bool.or_eq_true]
  tauto

theorem mem_dropEnds {p : Char → Bool} {l : List Char} {c : Char} (h : c ∈ dropEnds p l) :
    c ∈ l := by
  unfold dropEnds at h
  rw [List.mem_reverse] at h
  have h1 := (List.dropWhile_sublist p).subset h
  rw [List.mem_reverse] at h1
  exact (List.dropWhile_sublist p).subset h1

theorem mem_collapseWS : ∀ (l : List Char) (flag : Bool) (c : Char),
    c ∈ collapseWS flag l → c ∈ l ∨ c = '-' := by
  intro l
  induction l with
  | nil =>
    intro flag c h
    simp [collapseWS] at h
  | cons x xs ih =>
    intro flag c h
    unfold collapseWS at h
    by_cases hws : isPyWS x = true
    · rw [if_pos hws] at h
      cases flag with
      | true =>
        rcases ih true c h with h2 | h2
        · exact Or.inl (List.mem_cons_of_mem x h2)
        · exact Or.inr h2
      | false =>
        rcases List.mem_cons.mp h with h2 | h2
        · exact Or.inr h2
        · rcases ih true c h2 with h3 | h3
          · exact Or.inl (List.mem_cons_of_mem x h3)
          · exact Or.inr h3
    · rw [if_neg hws] at h
      rcases List.mem_cons.mp h with h2 | h2
      · exact Or.inl (h2 ▸ List.mem_cons_self x xs)
      · rcases ih false c h2 with h3 | h3
        · exact Or.inl (List.mem_cons_of_mem x h3)
        · exact Or.inr h3

theorem safe_filename_chars (s : String) :
    ∀ c ∈ (safe_filename (some s)).data, allowedT c = true := by
  intro c hc
  have hc1 : c ∈ (dropEnds (fun ch => ch == '-')
      (collapseWS false ((dropEnds isPyWS s.data).filter allowedF))).take 80 := hc
  have hc2 := (List.take_sublist 80 _).subset hc1
  have hc3 := mem_dropEnds hc2
  rcases mem_collapseWS _ _ _ hc3 with h4 | h4
  · exact allowedF_allowedT c (List.of_mem_filter h4)
  · rw [h4]
    decide

theorem digitChar_digit : ∀ m < 10, (Nat.digitChar m).isDigit = true := by
  decide

theorem reprD_chars : ∀ n : Nat, ∀ c ∈ reprD n, c.isDigit = true := by
  intro n
  induction n using Nat.strong_induction_on with
  | _ n ih =>
    intro c hc
    rw [reprD] at hc
    split at hc
    case isTrue h =>
      rw [List.mem_singleton] at hc
      rw [hc]
      exact digitChar_digit n h
    case isFalse h =>
      rcases List.mem_append.mp hc with h2 | h2
      · exact ih (n / 10) (Nat.div_lt_self (by omega) (by omega)) c h2
      · rw [List.mem_singleton] at h2
        rw [h2]
        exact digitChar_digit (n % 10) (Nat.mod_lt n (by omega))

theorem isDigit_allowedT (c : Char) (h : c.isDigit = true) : allowedT c = true := by
  simp [allowedT, h]

theorem normExt_chars (e : String) : ∀ c ∈ (normExt e).data, allowedT c = true := by
  intro c hc
  unfold normExt at hc
  split at hc
  case isTrue h =>
    rcases h with h | h | h <;> (subst h; revert hc)
    · exact fun hc => (by decide : ∀ x ∈ (".png" : String).data, allowedT x = true) c hc
    · exact fun hc => (by decide : ∀ x ∈ (".jpg" : String).data, allowedT x = true) c hc
    · exact fun hc => (by decide : ∀ x ∈ (".jpeg" : String).data, allowedT x = true) c hc
  case isFalse h =>
    exact (by decide : ∀ x ∈ (".jpg" : String).data, allowedT x = true) c hc

theorem candidateN_chars (base orig ext : String)
    (hb : ∀ c ∈ base.data, allowedT c = true) (ho : ∀ c ∈ orig.data, allowedT c = true)
    (he : ∀ c ∈ ext.data, allowedT c = true) (i : Nat) :
    ∀ c ∈ (candidateN base orig ext i).data, allowedT c = true := by
  intro c hc
  simp only [candidateN, String.data_append, List.mem_append] at hc
  rcases hc with ((((hc | hc) | hc) | hc) | hc) | hc
  · exact hb c hc
  · exact (by decide : ∀ x ∈ ("-" : String).data, allowedT x = true) c hc
  · exact ho c hc
  · exact (by decide : ∀ x ∈ ("-" : String).data, allowedT x = true) c hc
  · rw [repr_data_eq_reprD] at hc
    exact isDigit_allowedT c (reprD_chars i c hc)
  · exact he c hc

theorem candidate0_chars (base orig ext : String)
    (hb : ∀ c ∈ base.data, allowedT c = true) (ho : ∀ c ∈ orig.data, allowedT c = true)
    (he : ∀ c ∈ ext.data, allowedT c = true) :
    ∀ c ∈ (candidate0 base orig ext).data, allowedT c = true := by
  intro c hc
  have hc2 := mem_dropEnds hc
  simp only [String.data_append, List.mem_append] at hc2
  rcases hc2 with ((hc2 | hc2) | hc2) | hc2
  · exact hb c hc2
  · exact (by decide : ∀ x ∈ ("-" : String).data, allowedT x = true) c hc2
  · exact ho c hc2
  · exact he c hc2

theorem find_name_loop_chars (names : List String) (base orig ext : String)
    (hb : ∀ c ∈ base.data, allowedT c = true) (ho : ∀ c ∈ orig.data, allowedT c = true)
    (he : ∀ c ∈ ext.data, allowedT c = true) :
    ∀ (fuel i : Nat), ∀ c ∈ (find_name_loop names base orig ext i fuel).data,
      allowedT c = true := by
  intro fuel
  induction fuel with
  | zero =>
    intro i c hc
    exact candidateN_chars base orig ext hb ho he i c hc
  | succ f ih =>
    intro i c hc
    rw [show find_name_loop names base orig ext i (f + 1) =
        (if candidateN base orig ext i ∈ names
         then find_name_loop names base orig ext (i + 1) f
         else candidateN base orig ext i) from rfl] at hc
    by_cases hn : candidateN base orig ext i ∈ names
    · rw [if_pos hn] at hc
      exact ih (i + 1) c hc
    · rw [if_neg hn] at hc
      exact candidateN_chars base orig ext hb ho he i c hc

theorem find_image_name_chars (names : List String) (base orig ext : String)
    (hb : ∀ c ∈ base.data, allowedT c = true) (ho : ∀ c ∈ orig.data, allowedT c = true)
    (he : ∀ c ∈ ext.data, allowedT c = true) :
    ∀ c ∈ (find_image_name names base orig ext).data, allowedT c = true := by
  intro c hc
  rw [show find_image_name names base orig ext =
      (if candidate0 base orig ext ∈ names
       then find_name_loop names base orig ext 1 (names.length + 1)
       else candidate0 base orig ext) from rfl] at hc
  by_cases h0 : candidate0 base orig ext ∈ names
  · rw [if_pos h0] at hc
    exact find_name_loop_chars names base orig ext hb ho he (names.length + 1) 1 c hc
  · rw [if_neg h0] at hc
    exact candidate0_chars base orig ext hb ho he c hc

theorem safe_text_fix_of_allowed (t : String) (ht : ∀ c ∈ t.data, allowedT c = true) :
    safe_text (some t) = t := by
  show String.mk (t.data.filter allowedT) = t
  rw [List.filter_eq_self.mpr ht]

/-- C10: the general sanitizer is the identity on filename-sanitizer
output — `safe_text (safe_filename s) = safe_filename s` for every
input — because every character `safe_filename` can emit (letters,
digits, `.`, `-`, with whitespace collapsed to `-`) is in
`safe_text`'s allow-list; consequently every filename the image store
builds (base-orig with numeric suffix and coerced extension) passes
the per-field sanitization applied on save unchanged, so the stored
Image Path equals the actual filename on disk. -/
theorem safe_text_identity_on_filenames :
    (∀ s : String, safe_text (some (safe_filename (some s))) = safe_filename (some s)) ∧
    (∀ (dir : List (String × List Nat)) (dn origName : String) (bs : List Nat),
      safe_text (some (store_image dir dn origName bs).1) = (store_image dir dn origName bs).1) := by
  constructor
  · intro s
    exact safe_text_fix_of_allowed _ (safe_filename_chars s)
  · intro dir dn origName bs
    exact safe_text_fix_of_allowed _
      (find_image_name_chars (dir.map Prod.fst)
        (safe_filename (some dn))
        (safe_filename (some (splitext origName).1))
        (normExt (pyLower (splitext origName).2))
        (safe_filename_chars dn)
        (safe_filename_chars (splitext origName).1)
        (normExt_chars (pyLower (splitext origName).2)))

end SpellCrystal
